import Mathlib

/-!
Verification development for the rss-spider-catl repository.

The Python sources (spider_yesterday_1012.py, spider_yesterday.py,
spider_yesterday_matoday.py, weekly_aggregate.py) are shallowly embedded
below.  External library calls that the scripts make (html.unescape,
pandas.to_datetime, dateutil.parser.parse, the pandas sorting routine,
pd.read_csv, the img-alt extraction regex helper) are modelled as explicit
function parameters; everything written in the repository itself is
translated directly.  Exceptions are modelled with Except, absent values
with Option, and Python strings with Lean String / List Char.
-/

namespace RssSpider

/-! ## Character classes (ASCII fragment of the Python `\s`, `\d`, `\w` classes) -/

/-! ## Python `str.strip`, `str.lower`, `str.split` -/

/-! ## Python `str.replace` and the theory needed for mojibake repair

`replaceFuel` performs the left-to-right, all-occurrences substring
replacement of Python's `str.replace`, with a fuel argument so that the
definition is structurally recursive (fuel `s.length` always suffices,
because each step consumes at least one character of the subject). -/

/-! ## fix_mojibake (spider_yesterday_1012.py, lines 43-58) -/

/-- The ASCII part of Python's whitespace class `\s`
(space, tab, newline, carriage return, vertical tab, form feed). -/
def isPySpace (c : Char) : Bool :=
  c = ' ' || c = '\t' || c = '\n' || c = '\r' || c = Char.ofNat 11 || c = Char.ofNat 12

/-- ASCII decimal digit, the core of the regex class `\d`. -/
def isDigitCh (c : Char) : Bool :=
  '0' ≤ c && c ≤ '9'

/-- The regex class `[A-Za-z]`. -/
def isAsciiAlpha (c : Char) : Bool :=
  ('a' ≤ c && c ≤ 'z') || ('A' ≤ c && c ≤ 'Z')

/-- ASCII core of the regex class `\w` used by spider_yesterday_matoday.py. -/
def isWordCh (c : Char) : Bool :=
  isAsciiAlpha c || isDigitCh c || c = '_'

/-- `str.strip()` on a list of characters: drop whitespace at both ends. -/
def pyStripL (l : List Char) : List Char :=
  ((l.dropWhile isPySpace).reverse.dropWhile isPySpace).reverse

/-- Python `str.strip()` (ASCII-whitespace model). -/
def pyStrip (s : String) : String :=
  String.mk (pyStripL s.data)

/-- Python `str.lower()` (ASCII model: `Char.toLower` lowers `A`–`Z` only). -/
def pyLower (s : String) : String :=
  String.mk (s.data.map Char.toLower)

/-- Python `str.split()` with no argument: words separated by whitespace runs,
implemented with fuel so that it computes by kernel reduction. -/
def pySplitF : ℕ → List Char → List (List Char)
  | _, [] => []
  | 0, s => [s]
  | f + 1, c :: rest =>
    if isPySpace c then pySplitF f (rest.dropWhile isPySpace)
    else (c :: rest.takeWhile (fun x => !isPySpace x)) ::
      pySplitF f (rest.dropWhile (fun x => !isPySpace x))

/-- Python `str.split()` with no argument. -/
def pySplitL (l : List Char) : List (List Char) :=
  pySplitF l.length l

/-- `leadsWith k s` is true when `k` is a prefix of `s` (used for the
match test that `str.replace` performs at each position). -/
def leadsWith : List Char → List Char → Bool
  | [], _ => true
  | _ :: _, [] => false
  | p :: ps, c :: cs => if c = p then leadsWith ps cs else false

/-- One pass of Python's `str.replace(k, v)` over `s`, fuelled. -/
def replaceFuel (k v : List Char) : ℕ → List Char → List Char
  | _, [] => []
  | 0, s => s
  | f + 1, c :: t =>
    if leadsWith k (c :: t) then v ++ replaceFuel k v f ((c :: t).drop k.length)
    else c :: replaceFuel k v f t

/-- Python's `s.replace(k, v)` on character lists (for nonempty `k`;
the scripts only use nonempty patterns). -/
def replaceList (k v s : List Char) : List Char :=
  replaceFuel k v s.length s

/-- `IsLead k s`: `k` is a prefix of `s`, as a proposition. -/
def IsLead (k s : List Char) : Prop :=
  ∃ b, s = k ++ b

/-- `SubSeg k s`: `k` occurs as a contiguous segment (substring) of `s`. -/
def SubSeg (k s : List Char) : Prop :=
  ∃ a b, s = a ++ k ++ b

/-- The `repl` dict of `fix_mojibake`, in insertion order.  The corrupted
keys are, byte for byte: U+9225 followed by U+FFFD; U+9225 alone; and the
five sequences U+00E2 U+0080 X, X among U+0099, U+0093, U+0094, U+009C,
U+009D.  All seven keys are distinct strings, so the Python dict keeps
all seven rules. -/
def mojibakeTable : List (List Char × List Char) :=
  [ (['鈥', Char.ofNat 0xFFFD], ['\''])
  , (['鈥'], ['\''])
  , (['â', Char.ofNat 0x80, Char.ofNat 0x99], ['\''])
  , (['â', Char.ofNat 0x80, Char.ofNat 0x93], ['-'])
  , (['â', Char.ofNat 0x80, Char.ofNat 0x94], ['-'])
  , (['â', Char.ofNat 0x80, Char.ofNat 0x9C], ['"'])
  , (['â', Char.ofNat 0x80, Char.ofNat 0x9D], ['"'])
  ]

/-- The `for k, v in repl.items(): s = s.replace(k, v)` loop. -/
def foldRepl (table : List (List Char × List Char)) (s : List Char) : List Char :=
  table.foldl (fun acc kv => replaceList kv.1 kv.2 acc) s

/-- `fix_mojibake` from spider_yesterday_1012.py. -/
def fix_mojibake (s : String) : String :=
  if s = "" then s
  else String.mk (foldRepl mojibakeTable s.data)

/-- Well-formedness of a replacement table: patterns and replacements are
nonempty, and no replacement character occurs in any pattern. -/
def TableOK (table : List (List Char × List Char)) : Prop :=
  (∀ p ∈ table, p.1 ≠ [] ∧ p.2 ≠ []) ∧
  (∀ p ∈ table, ∀ q ∈ table, ∀ c ∈ q.2, c ∉ p.1)


/-- Boolean substring search matching `SubSeg`. -/
def hasSeg (k : List Char) : List Char → Bool
  | [] => leadsWith k []
  | c :: t => leadsWith k (c :: t) || hasSeg k t

/-- A concrete mojibake-corrupted sample string (for witnesses). -/
def sampleMoji : String :=
  String.mk ('I' :: 't' :: '鈥' :: Char.ofNat 0xFFFD :: 's' :: [])


/-! ## Dates and datetimes

Python `datetime.date` / tz-aware `datetime.datetime` (always UTC in these
scripts) are modelled by their stored broken-down fields.  The `datetime`
constructor validates field ranges and raises `ValueError` otherwise; that
fallibility is modelled with `Except`. -/

/-- A Python `datetime.date`. -/
structure PyDate where
  year : ℕ
  month : ℕ
  day : ℕ
deriving DecidableEq, Repr

/-- A Python tz-aware `datetime.datetime` in UTC (broken-down fields,
exactly as the Python object stores them). -/
structure PyDateTime where
  year : ℕ
  month : ℕ
  day : ℕ
  hour : ℕ
  minute : ℕ
  second : ℕ
deriving DecidableEq, Repr

/-- Python's `datetime.date()` accessor. -/
def PyDateTime.date (d : PyDateTime) : PyDate :=
  ⟨d.year, d.month, d.day⟩

/-- The first six fields of a `time.struct_time`
(as selected by the scripts' `t[:6]`). -/
structure TimeTuple where
  year : ℕ
  month : ℕ
  mday : ℕ
  hour : ℕ
  minute : ℕ
  sec : ℕ
deriving DecidableEq, Repr

/-- Gregorian leap year (as in Python's `calendar`/`datetime`). -/
def isLeap (y : ℕ) : Bool :=
  (y % 4 == 0 && y % 100 != 0) || y % 400 == 0

/-- Number of days in a month. -/
def daysInMonth (y m : ℕ) : ℕ :=
  if m = 2 then (if isLeap y then 29 else 28)
  else if m = 4 ∨ m = 6 ∨ m = 9 ∨ m = 11 then 30
  else 31

/-- The `datetime.datetime(year, month, day, hour, minute, second,
tzinfo=timezone.utc)` constructor: validates the field ranges exactly as
CPython does (MINYEAR 1 to MAXYEAR 9999, months 1-12, day within the
month, hour 0-23, minute and second 0-59) and raises otherwise. -/
def mkDatetime (y mo d h mi s : ℕ) : Except Unit PyDateTime :=
  if 1 ≤ y ∧ y ≤ 9999 ∧ 1 ≤ mo ∧ mo ≤ 12 ∧ 1 ≤ d ∧ d ≤ daysInMonth y mo ∧
     h ≤ 23 ∧ mi ≤ 59 ∧ s ≤ 59
  then .ok ⟨y, mo, d, h, mi, s⟩
  else .error ()

/-! ## parse_date_strict (spider_yesterday_1012.py, lines 112-124)

`pandas.to_datetime(..., utc=True, errors="raise")` followed by
`.to_pydatetime()` is an external-library call; it is modelled by a
parameter `pdParse : String → Except Unit PyDateTime` whose `.error`
result stands for a raised exception.  The `try/except` of
`parse_date_strict` catches that exception and yields `None`. -/

/-- `parse_date_strict` from spider_yesterday_1012.py; the argument is
`entry.get(key)`, hence an `Option String`, and `if not d` treats both a
missing value and the empty string as absent. -/
def parse_date_strict (pdParse : String → Except Unit PyDateTime)
    (d : Option String) : Option PyDateTime :=
  match d with
  | none => none
  | some s =>
    if s = "" then none
    else
      match pdParse s with
      | .ok t => some t
      | .error _ => none

/-! ## The AVAILABLE_ONLINE_RE regex (spider_yesterday_1012.py, lines 17-20)

`re.search` with the pattern
`Available\s+online\s+(\d{1,2}\s+[A-Za-z]+\s+\d{4})`, IGNORECASE, is
implemented directly: scan for the leftmost starting position at which the
pattern matches; the only backtracking point in the pattern is `\d{1,2}`
(greedy: try two digits, then one), because every other pair of adjacent
subpatterns draws from disjoint character classes. -/

/-- Match a fixed lowercase word case-insensitively at the head of `s`;
return the rest. -/
def matchCI : List Char → List Char → Option (List Char)
  | [], rest => some rest
  | _ :: _, [] => none
  | p :: ps, c :: cs => if c.toLower = p then matchCI ps cs else none

/-- Match a fixed literal at the head of `s` (case-sensitive); return
the rest. -/
def matchLit : List Char → List Char → Option (List Char)
  | [], rest => some rest
  | _ :: _, [] => none
  | p :: ps, c :: cs => if c = p then matchLit ps cs else none

/-- Match `\s+` at the head of `s`; return (matched, rest). -/
def spaces1 (s : List Char) : Option (List Char × List Char) :=
  let a := s.takeWhile isPySpace
  if a.isEmpty then none else some (a, s.dropWhile isPySpace)

/-- Match `\s+<word>+\s+\d{4}` where `<word>` is the given character
class; return (matched characters, rest).  No backtracking is needed:
the word class, the whitespace class and the digit class touch only at
positions fixed by maximal runs. -/
def tailDMY (wordCh : Char → Bool) (s : List Char) :
    Option (List Char × List Char) := do
  let (sp1, s1) ← spaces1 s
  let al := s1.takeWhile wordCh
  if al.isEmpty then none
  else
    let s2 := s1.dropWhile wordCh
    let (sp2, s3) ← spaces1 s2
    let d4 := s3.take 4
    if d4.length = 4 && d4.all isDigitCh then
      some (sp1 ++ al ++ sp2 ++ d4, s3.drop 4)
    else none

/-- Match the capture group `\d{1,2}\s+<word>+\s+\d{4}` at the head of
`s`; greedy `\d{1,2}` with backtracking from two digits to one. -/
def groupDMY (wordCh : Char → Bool) : List Char → Option (List Char)
  | [] => none
  | c1 :: rest1 =>
    if isDigitCh c1 then
      match rest1 with
      | c2 :: rest2 =>
        if isDigitCh c2 then
          match tailDMY wordCh rest2 with
          | some (m, _) => some (c1 :: c2 :: m)
          | none => (tailDMY wordCh rest1).map (fun p => c1 :: p.1)
        else (tailDMY wordCh rest1).map (fun p => c1 :: p.1)
      | [] => none
    else none

/-- Try AVAILABLE_ONLINE_RE at the head of `s`; return group 1. -/
def matchAvailOnlineAt (s : List Char) : Option (List Char) := do
  let s1 ← matchCI "available".data s
  let (_, s2) ← spaces1 s1
  let s3 ← matchCI "online".data s2
  let (_, s4) ← spaces1 s3
  groupDMY isAsciiAlpha s4

/-- `AVAILABLE_ONLINE_RE.search`: leftmost match, group 1. -/
def searchAvailOnline : List Char → Option (List Char)
  | [] => none
  | c :: t =>
    match matchAvailOnlineAt (c :: t) with
    | some g => some g
    | none => searchAvailOnline t

/-- Try spider_yesterday_matoday.py's pattern
`Available online\s+([0-9]{1,2}\s+\w+\s+[0-9]{4})` (case-sensitive,
literal single space between the two words) at the head of `s`. -/
def matchMatodayAt (s : List Char) : Option (List Char) := do
  let s1 ← matchLit "Available online".data s
  let (_, s2) ← spaces1 s1
  groupDMY isWordCh s2

/-- `re.search` for the matoday pattern: leftmost match, group 1. -/
def searchMatoday : List Char → Option (List Char)
  | [] => none
  | c :: t =>
    match matchMatodayAt (c :: t) with
    | some g => some g
    | none => searchMatoday t


/-! ## clean_html_text (spider_yesterday_1012.py, lines 35-41)

`html.unescape` is an external stdlib call and is taken as a parameter
`unesc : String → String`; tag removal (`TAG_RE = <[^>]+>`) and
whitespace collapsing (`re.sub(r"\\s+", " ", s)`) are implemented
directly, fuelled for structural recursion. -/

/-- `TAG_RE.sub("", s)`: remove every leftmost non-overlapping match of
`<[^>]+>`.  At a `<`, the greedy `[^>]+` runs to the first `>`; the match
needs at least one character between the brackets. -/
def stripTagsF : ℕ → List Char → List Char
  | _, [] => []
  | 0, s => s
  | f + 1, c :: rest =>
    if c = '<' then
      match rest.dropWhile (fun x => x ≠ '>') with
      | '>' :: after =>
        if (rest.takeWhile (fun x => x ≠ '>')).isEmpty then
          c :: stripTagsF f rest
        else stripTagsF f after
      | _ => c :: stripTagsF f rest
    else c :: stripTagsF f rest

/-- `TAG_RE.sub("", s)` on a character list. -/
def stripTags (l : List Char) : List Char :=
  stripTagsF l.length l

/-- `re.sub(r"\\s+", " ", s)`: replace every whitespace run by one space. -/
def collapseWsF : ℕ → List Char → List Char
  | _, [] => []
  | 0, s => s
  | f + 1, c :: rest =>
    if isPySpace c then ' ' :: collapseWsF f (rest.dropWhile isPySpace)
    else c :: collapseWsF f rest

/-- `re.sub(r"\\s+", " ", s)` on a character list. -/
def collapseWs (l : List Char) : List Char :=
  collapseWsF l.length l

/-- `clean_html_text` from spider_yesterday_1012.py: entity unescape
(external, the `unesc` parameter), tag removal, whitespace collapsing,
strip. -/
def clean_html_text (unesc : String → String) (s : String) : String :=
  if s = "" then ""
  else pyStrip (String.mk (collapseWs (stripTags (unesc s).data)))

/-! ## parse_available_online_date (spider_yesterday_1012.py, lines 126-153) -/

/-- The `MONTHS` dict (spider_yesterday_1012.py, lines 30-33). -/
def MONTHS : List (String × ℕ) :=
  [("january", 1), ("february", 2), ("march", 3), ("april", 4),
   ("may", 5), ("june", 6), ("july", 7), ("august", 8),
   ("september", 9), ("october", 10), ("november", 11), ("december", 12)]

/-- `MONTHS.get(key)`. -/
def monthsGet (s : String) : Option ℕ :=
  (MONTHS.find? (fun p => p.1 = s)).map Prod.snd

/-- Python `int(str)` restricted to the nonnegative digit strings the
scripts feed it; anything else raises. -/
def pyInt (l : List Char) : Except Unit ℕ :=
  if l ≠ [] ∧ l.all isDigitCh then
    .ok (l.foldl (fun a c => a * 10 + (c.toNat - '0'.toNat)) 0)
  else .error ()

/-- `parse_available_online_date` from spider_yesterday_1012.py: clean the
description, search for the "Available online <day> <month> <year>"
phrase, split the captured group, convert day and year with `int`, look
the month name up in `MONTHS`, and build the instant at UTC midnight.
Every failure inside the `try` block (bad int, unknown month via the
`if not month` check, out-of-range date in the `datetime` constructor)
falls back to `parse_date_strict` on the captured substring. -/
def parse_available_online_date (unesc : String → String)
    (pdParse : String → Except Unit PyDateTime)
    (description_html : String) : Option PyDateTime :=
  if description_html = "" then none
  else
    let desc_txt := clean_html_text unesc description_html
    match searchAvailOnline desc_txt.data with
    | none => none
    | some g =>
      let date_str := String.mk g
      let parts := pySplitL g
      if parts.length ≠ 3 then parse_date_strict pdParse (some date_str)
      else
        let day_s := parts.headD []
        let month_s := (parts.drop 1).headD []
        let year_s := (parts.drop 2).headD []
        match pyInt day_s with
        | .error _ => parse_date_strict pdParse (some date_str)
        | .ok day =>
          let month? := monthsGet (pyLower (String.mk month_s))
          match pyInt year_s with
          | .error _ => parse_date_strict pdParse (some date_str)
          | .ok year =>
            match month? with
            | none => parse_date_strict pdParse (some date_str)
            | some month =>
              match mkDatetime year month day 0 0 0 with
              | .ok dt => some dt
              | .error _ => parse_date_strict pdParse (some date_str)

/-! ## Feed entries and get_entry_pub_date (spider_yesterday_1012.py, 155-176) -/

/-- The fields of a feedparser entry that the scripts read.  `content`
holds the `value` field of each content block (`c.get("value")`). -/
structure Entry where
  title : Option String
  link : Option String
  summary : Option String
  description : Option String
  content : List (Option String)
  published_parsed : Option TimeTuple
  updated_parsed : Option TimeTuple
  published : Option String
  updated : Option String

/-- `get_entry_pub_date` from spider_yesterday_1012.py.  The structured
branch builds the datetime directly from the tuple outside any
`try` block, so its constructor error propagates (hence the `Except`
result); the string branches and the Available-online branch are total. -/
def get_entry_pub_date (unesc : String → String)
    (pdParse : String → Except Unit PyDateTime)
    (e : Entry) : Except Unit (Option PyDateTime) :=
  match e.published_parsed.orElse (fun _ => e.updated_parsed) with
  | some t => (mkDatetime t.year t.month t.mday t.hour t.minute t.sec).map some
  | none =>
    let dt : Option PyDateTime :=
      match parse_date_strict pdParse e.published with
      | some d => some d
      | none => parse_date_strict pdParse e.updated
    match dt with
    | some d => .ok (some d)
    | none =>
      .ok (parse_available_online_date unesc pdParse (e.summary.getD ""))

/-- The per-entry date resolution of spider_yesterday_matoday.py
(lines 75-92): the "Available online" phrase in the summary (or the
description when the summary is missing or empty) is tried FIRST, parsed
with `dateutil.parser.parse` (external, the `duParse` parameter, its
exceptions swallowed); only if that yields nothing do the structured
tuples get used, again with an unguarded datetime constructor. -/
def matoday_entry_pub_date (duParse : String → Except Unit PyDateTime)
    (e : Entry) : Except Unit (Option PyDateTime) :=
  let text :=
    match e.summary with
    | some s => if s = "" then e.description.getD "" else s
    | none => e.description.getD ""
  let pd0 : Option PyDateTime :=
    match searchMatoday text.data with
    | some g =>
      match duParse (String.mk g) with
      | .ok d => some d
      | .error _ => none
    | none => none
  match pd0 with
  | some d => .ok (some d)
  | none =>
    match e.published_parsed with
    | some t => (mkDatetime t.year t.month t.mday t.hour t.minute t.sec).map some
    | none =>
      match e.updated_parsed with
      | some t => (mkDatetime t.year t.month t.mday t.hour t.minute t.sec).map some
      | none => .ok none


/-! ## Title resolution (spider_yesterday_1012.py, lines 22-28 and 60-110)

`extract_alt_from_html` (lines 66-75) applies the ALT_IMG_RE regex and the
same sanitize pipeline to an HTML blob; it is an independent leaf helper
and is taken as a parameter `extractAlt : String → Option String` so that
the decision logic of `get_entry_title` can be verified over all its
possible outcomes. -/

/-- `GENERIC_TITLES` (spider_yesterday_1012.py, lines 22-28). -/
def GENERIC_TITLES : List String :=
  ["graphical abstract", "table of contents", "toc", "cover image", "no title"]

/-- `looks_generic` (lines 60-64): empty after strip/lower, in the fixed
set, or shorter than 5 characters. -/
def looks_generic (title : String) : Bool :=
  let t := pyLower (pyStrip title)
  if t = "" then true
  else decide (t ∈ GENERIC_TITLES) || decide (t.length < 5)

/-- Python `max(candidates, key=len)`: the first element of maximal
length (later elements replace the best only when strictly longer). -/
def maxByLen : List String → String
  | [] => ""
  | x :: xs => xs.foldl (fun b y => if y.length > b.length then y else b) x

/-- The `html_blobs` collection of `get_entry_title` (lines 86-94):
the non-empty content-block values in order, then the summary when it is
present and non-empty. -/
def html_blobs (e : Entry) : List String :=
  (e.content.filterMap fun c =>
    match c with
    | some v => if v = "" then none else some v
    | none => none) ++
  (match e.summary with
   | some s => if s = "" then [] else [s]
   | none => [])

/-- The `alt_candidates` collection (lines 96-100): run the extractor on
each blob and keep the truthy results. -/
def altCandidates (extractAlt : String → Option String) (e : Entry) :
    List String :=
  (html_blobs e).filterMap fun b =>
    match extractAlt b with
    | some a => if a = "" then none else some a
    | none => none

/-- `get_entry_title` (lines 77-110). -/
def get_entry_title (unesc : String → String)
    (extractAlt : String → Option String) (e : Entry) : String :=
  let title_from_feed := fix_mojibake (clean_html_text unesc (e.title.getD ""))
  let alt_candidates := altCandidates extractAlt e
  if looks_generic title_from_feed && !alt_candidates.isEmpty then
    maxByLen alt_candidates
  else if (title_from_feed != "") && !alt_candidates.isEmpty &&
      decide ((maxByLen alt_candidates).length ≥ title_from_feed.length + 10) &&
      !looks_generic (maxByLen alt_candidates) then
    maxByLen alt_candidates
  else if title_from_feed != "" then title_from_feed
  else
    match alt_candidates with
    | c :: _ => c
    | [] => ""

/-! ## Window filter and record construction (spider_yesterday_1012.py,
lines 189-208; same filter in spider_yesterday.py lines 28-36) -/

/-- The admission condition `pub_date and pub_date.date() == yesterday`.
A datetime object is always truthy, so presence plus date equality. -/
def in_window (pub_date : Option PyDateTime) (target : PyDate) : Bool :=
  match pub_date with
  | none => false
  | some d => decide (d.date = target)

/-- One collected article row (the dict appended to `records`). -/
structure Record where
  title : String
  link : String
  published : String
  source : String
  pub_date : PyDateTime
deriving DecidableEq, Repr

/-- Zero-pad to two digits (strftime's %m, %d, %H, %M, %S). -/
def pad2 (n : ℕ) : String :=
  if n < 10 then "0" ++ toString n else toString n

/-- Zero-pad to four digits (strftime's %Y). -/
def pad4 (n : ℕ) : String :=
  if n < 10 then "000" ++ toString n
  else if n < 100 then "00" ++ toString n
  else if n < 1000 then "0" ++ toString n
  else toString n

/-- `pub_date.strftime("%Y-%m-%d %H:%M:%S %Z")` for a UTC-aware datetime
(`%Z` prints `UTC`). -/
def strftime_pub (d : PyDateTime) : String :=
  pad4 d.year ++ "-" ++ pad2 d.month ++ "-" ++ pad2 d.day ++ " " ++
  pad2 d.hour ++ ":" ++ pad2 d.minute ++ ":" ++ pad2 d.second ++ " UTC"

/-- The record dict built for an admitted entry (lines 200-208). -/
def mk_record (unesc : String → String)
    (extractAlt : String → Option String) (source_title : String)
    (e : Entry) (d : PyDateTime) : Record :=
  ⟨get_entry_title unesc extractAlt e, e.link.getD "",
   strftime_pub d, source_title, d⟩

/-- The entry loop of spider_yesterday_1012.py for one feed: resolve the
date (an exception there aborts the run), keep entries whose date is the
target day, and collect their records in order. -/
def processEntries (unesc : String → String)
    (pdParse : String → Except Unit PyDateTime)
    (extractAlt : String → Option String) (source_title : String)
    (yesterday : PyDate) : List Entry → Except Unit (List Record)
  | [] => .ok []
  | e :: rest =>
    match get_entry_pub_date unesc pdParse e with
    | .error er => .error er
    | .ok pd =>
      match processEntries unesc pdParse extractAlt source_title yesterday rest with
      | .error er => .error er
      | .ok recs =>
        match pd with
        | some d =>
          if in_window (some d) yesterday then
            .ok (mk_record unesc extractAlt source_title e d :: recs)
          else .ok recs
        | none => .ok recs

/-! ## Dedup and sort (spider_yesterday_1012.py, lines 222-229;
spider_yesterday.py, lines 42-43)

`df.sort_values(by="pub_date", ascending=True)` is a call into pandas
with the default `kind="quicksort"`; pandas only guarantees that the
result is a permutation of the rows that is ascending in the key — the
default algorithm is documented as not stable.  The sort is therefore a
parameter `sortFn`, and theorems assume exactly the guaranteed contract:
sortedness plus permutation.  `drop_duplicates(subset=..., keep="first")`
keeps the first row of each key in the current row order and is modelled
directly. -/

/-- Injective order-preserving key of a valid UTC datetime (fields are
within range, so the mixed radix below is strictly monotone in the
lexicographic field order pandas sorts by). -/
def dtKey (d : PyDateTime) : ℕ :=
  ((((d.year * 13 + d.month) * 32 + d.day) * 24 + d.hour) * 60 + d.minute)
    * 60 + d.second

/-- `drop_duplicates(keep="first")` on a given key: walk in order, keep a
row when its key has not been seen. -/
def dropDupFirstBy (key : Record → String) :
    List String → List Record → List Record
  | _, [] => []
  | seen, r :: rs =>
    if key r ∈ seen then dropDupFirstBy key seen rs
    else r :: dropDupFirstBy key (key r :: seen) rs

/-- The normalized title used as dedup key by spider_yesterday_1012.py:
`df["title"].fillna("").str.strip()`. -/
def titleNorm (r : Record) : String :=
  pyStrip r.title

/-- `df.sort_values(by="pub_date").drop_duplicates(subset="title_norm",
keep="first")` of spider_yesterday_1012.py, over an arbitrary sorting
routine `sortFn` standing for pandas. -/
def df_dedup (sortFn : List Record → List Record) (l : List Record) :
    List Record :=
  dropDupFirstBy titleNorm [] (sortFn l)


/-! ## Calendar arithmetic for the weekly aggregator (weekly_aggregate.py)

Python `date` arithmetic (`timedelta` addition, `isocalendar`) is
implemented with the standard proleptic-Gregorian day-number conversions
(era/year-of-era decomposition).  `toRata` counts days since 1970-01-01. -/

/-- Days since 1970-01-01 of a civil date (valid for year ≥ 1). -/
def toRata (d : PyDate) : ℤ :=
  let y : ℕ := if d.month ≤ 2 then d.year - 1 else d.year
  let era : ℕ := y / 400
  let yoe : ℕ := y - era * 400
  let mp : ℕ := if d.month > 2 then d.month - 3 else d.month + 9
  let doy : ℕ := (153 * mp + 2) / 5 + d.day - 1
  let doe : ℕ := yoe * 365 + yoe / 4 - yoe / 100 + doy
  (era * 146097 + doe : ℤ) - 719468

/-- Civil date from days since 1970-01-01 (valid for nonnegative
proleptic years). -/
def fromRata (z : ℤ) : PyDate :=
  let n : ℕ := (z + 719468).toNat
  let era := n / 146097
  let doe := n % 146097
  let yoe := (doe - doe / 1460 + doe / 36524 - doe / 146096) / 365
  let y := yoe + era * 400
  let doy := doe - (365 * yoe + yoe / 4 - yoe / 100)
  let mp := (5 * doy + 2) / 153
  let d := doy - (153 * mp + 2) / 5 + 1
  let m := if mp < 10 then mp + 3 else mp - 9
  ⟨(if m ≤ 2 then y + 1 else y), m, d⟩

/-- `date ± timedelta(days=n)`. -/
def addDays (d : PyDate) (n : ℤ) : PyDate :=
  fromRata (toRata d + n)

/-- `date.isocalendar().weekday` (Monday = 1 … Sunday = 7). -/
def isoWeekday (d : PyDate) : ℕ :=
  ((toRata d + 3).emod 7).toNat + 1

/-- Ordinal day within the year (Jan 1 = 1). -/
def dayOfYear (d : PyDate) : ℕ :=
  (List.range (d.month - 1)).foldl (fun a i => a + daysInMonth d.year (i + 1)) 0
    + d.day

/-- The Thursday of the ISO week containing `d`. -/
def isoThursday (d : PyDate) : PyDate :=
  addDays d ((4 : ℤ) - isoWeekday d)

/-- `date.isocalendar().year`: the year of the week's Thursday. -/
def isoYear (d : PyDate) : ℕ :=
  (isoThursday d).year

/-- `date.isocalendar().week`: index of the week's Thursday among the
Thursdays of its year. -/
def isoWeek (d : PyDate) : ℕ :=
  (dayOfYear (isoThursday d) - 1) / 7 + 1

/-- Python `date` comparison (dates are compared chronologically). -/
def pyDateLe (a b : PyDate) : Bool :=
  decide (toRata a ≤ toRata b)

/-! ## weekly_aggregate.py -/

/-- The week-boundary computation of `aggregate_last_week`
(lines 143-151): this week's Monday via the ISO weekday, minus 7 days
for last Monday, plus 6 for last Sunday. -/
def weekWindow (today : PyDate) : PyDate × PyDate :=
  let wd := isoWeekday today
  let this_monday := addDays today (-((wd : ℤ) - 1))
  let last_monday := addDays this_monday (-7)
  let last_sunday := addDays last_monday 6
  (last_monday, last_sunday)

/-- The `while d <= last_sunday` collection loop (lines 154-160), fuelled
with 8 iterations — one more than the seven dates the Monday-to-Sunday
window contains, so the fuel never binds. -/
def whileDates : ℕ → PyDate → PyDate → List PyDate
  | 0, _, _ => []
  | f + 1, d, last =>
    if pyDateLe d last then d :: whileDates f (addDays d 1) last else []

/-- The shape of a pandas DataFrame: its column list and row count.
(The weekly claims below are about presence of the header columns on the
empty outputs, for which this abstraction is exact.) -/
structure DFShape where
  cols : List String
  nrows : ℕ
deriving DecidableEq, Repr

/-- The fixed output column set. -/
def fiveCols : List String :=
  ["title", "link", "published", "source", "pub_date"]

/-- `normalize_pub_date` (weekly_aggregate.py lines 136-140) rewrites the
values of the `pub_date` column in place (`to_datetime` with
`errors="coerce"`); on the column/row-count abstraction it is the
identity. -/
def normalize_pub_date (df : DFShape) : DFShape :=
  df

/-- Name of the weekly output file, keyed by the ISO (year, week) of last
Sunday: `news_week_{year}-W{week:02d}.csv`. -/
def weeklyOutName (last_sunday : PyDate) : String :=
  "news_week_" ++ toString (isoYear last_sunday) ++ "-W" ++
    pad2 (isoWeek last_sunday) ++ ".csv"

/-- `aggregate_last_week` (weekly_aggregate.py lines 142-205), returning
the output file name and the shape of the dataset written.  The
filesystem (`f.exists()`) and `pd.read_csv` are parameters; a read error
is caught and that file skipped.  The non-empty branch's
concat/sort/dedup block (lines 187-197) operates on the row data and is
abstracted by the `combine` parameter; both empty branches (no files, or
every read failed) are modelled exactly: they write an empty DataFrame
carrying the full fixed column set. -/
def aggregate_last_week (today : PyDate) (fileExists : PyDate → Bool)
    (readCsv : PyDate → Except Unit DFShape)
    (combine : List DFShape → DFShape) : String × DFShape :=
  let lm := (weekWindow today).1
  let ls := (weekWindow today).2
  let files := (whileDates 8 lm ls).filter fileExists
  if files.isEmpty then
    (weeklyOutName ls, ⟨fiveCols, 0⟩)
  else
    let dfs := files.filterMap fun f =>
      match readCsv f with
      | .ok df => some (normalize_pub_date df)
      | .error _ => none
    if dfs.isEmpty then
      (weeklyOutName ls, ⟨fiveCols, 0⟩)
    else
      (weeklyOutName ls, combine dfs)

/-! ## The daily CSV outputs on an empty result set

`pd.DataFrame(records)` derives its columns from the dict keys; for an
empty records list it has NO columns.  spider_yesterday_1012.py (lines
217-231) writes that column-less frame directly in its `df.empty` branch;
spider_yesterday.py (lines 39-49) has no empty-case guard and calls
`sort_values(by="pub_date")` on the column-less frame, which raises
KeyError. -/

/-- `pd.DataFrame(records)`: five columns from the record dict keys, or
no columns at all when the list is empty. -/
def dfFromRecords (records : List Record) : DFShape :=
  if records.isEmpty then ⟨[], 0⟩ else ⟨fiveCols, records.length⟩

/-- Shape of the CSV written by spider_yesterday_1012.py: the raw empty
frame in the `df.empty` branch, otherwise the sorted/deduped five-column
frame. -/
def daily_csv_1012 (sortFn : List Record → List Record)
    (records : List Record) : DFShape :=
  let df := dfFromRecords records
  if df.nrows = 0 then df
  else ⟨fiveCols, (df_dedup sortFn records).length⟩

/-- Shape of the CSV written by spider_yesterday.py, which dedups on the
raw `title` column and never guards the empty case: `sort_values` raises
when the `pub_date` column is absent. -/
def daily_csv_old (sortFn : List Record → List Record)
    (records : List Record) : Except Unit DFShape :=
  if "pub_date" ∈ (dfFromRecords records).cols then
    .ok ⟨fiveCols,
      (dropDupFirstBy (fun r => r.title) [] (sortFn records)).length⟩
  else .error ()


/-! ## Concrete fixtures for witnesses and counterexamples -/

/-- A pandas `to_datetime` model that raises on every input (the scripts
swallow such failures). -/
def pdErr : String → Except Unit PyDateTime :=
  fun _ => .error ()

/-- An alt extractor that never finds an `img alt`. -/
def extNone : String → Option String :=
  fun _ => none

/-- An entry with every field absent. -/
def emptyEntry : Entry :=
  ⟨none, none, none, none, [], none, none, none, none⟩

/-- A `dateutil.parser.parse` model for the one date string that
spider_yesterday_matoday.py extracts in the counterexample below
(dateutil yields midnight when the string carries no time). -/
def duOct9 : String → Except Unit PyDateTime :=
  fun s => if s = "9 October 2025" then .ok ⟨2025, 10, 9, 0, 0, 0⟩ else .error ()

/-- An entry that has BOTH a structured published tuple
(2025-10-15 12:00:00) and an "Available online 9 October 2025" phrase in
its description. -/
def eBoth : Entry :=
  ⟨none, none, some "Available online 9 October 2025", none, [],
   some ⟨2025, 10, 15, 12, 0, 0⟩, none, none, none⟩

/-- An entry whose structured published tuple has an out-of-range month. -/
def eBadTuple : Entry :=
  ⟨none, none, none, none, [], some ⟨2025, 13, 1, 0, 0, 0⟩, none, none, none⟩

/-- Prose description carrying an "Available online" date. -/
def availDesc : String :=
  "Compound X was studied. Available online 10 October 2025. Details inside."

/-- Same phrase with a month name outside the MONTHS table. -/
def availDescBadMonth : String :=
  "Available online 10 Octember 2025"

/-- An entry with no structured tuples, no date strings, and the
"Available online" phrase in its summary. -/
def eAvail : Entry :=
  ⟨none, none, some availDesc, none, [], none, none, none, none⟩

/-- An entry resolving to 2025-10-10 00:00:00 UTC via its tuple. -/
def eWin : Entry :=
  ⟨none, none, none, none, [], some ⟨2025, 10, 10, 0, 0, 0⟩, none, none, none⟩

/-- Entry whose feed title is the "Graphical Abstract" placeholder with
one content blob. -/
def eGraph : Entry :=
  ⟨some "Graphical Abstract", none, none, none,
   [some "<img alt=placeholder>"], none, none, none, none⟩

/-- Alt extractor returning the real headline for `eGraph`'s blob. -/
def altNovel : String → Option String :=
  fun _ => some "Novel catalyst enables low-temperature CO2 reduction"

/-- Two records sharing a normalized title, 08:00 and 09:00. -/
def recEx8 : Record :=
  ⟨"Same Title", "link-1", "2025-10-10 08:00:00 UTC", "srcA",
   ⟨2025, 10, 10, 8, 0, 0⟩⟩

/-- The 09:00 duplicate (raw title differs by surrounding whitespace,
trimmed title equal). -/
def recEx9 : Record :=
  ⟨" Same Title ", "link-2", "2025-10-10 09:00:00 UTC", "srcB",
   ⟨2025, 10, 10, 9, 0, 0⟩⟩

/-- Two records sharing a normalized title and the SAME timestamp. -/
def recT1 : Record :=
  ⟨"Tie Title", "link-1", "2025-10-10 08:00:00 UTC", "srcA",
   ⟨2025, 10, 10, 8, 0, 0⟩⟩

/-- The equal-timestamp duplicate of `recT1`. -/
def recT2 : Record :=
  ⟨" Tie Title", "link-2", "2025-10-10 08:00:00 UTC", "srcB",
   ⟨2025, 10, 10, 8, 0, 0⟩⟩

/-- An entry whose only date signal is an unparseable published string. -/
def eGarbage : Entry :=
  ⟨none, none, none, none, [], none, none, some "not a date", none⟩

-- ===== THEOREMS =====

theorem leadsWith_iff : ∀ k s : List Char, leadsWith k s = true ↔ IsLead k s := by
  intro k
  induction k with
  | nil =>
    intro s
    simp [leadsWith, IsLead]
  | cons p ps ih =>
    intro s
    cases s with
    | nil =>
      simp [leadsWith, IsLead]
    | cons c cs =>
      constructor
      · intro h
        by_cases hc : c = p
        · rcases (ih cs).mp (by simpa [leadsWith, hc] using h) with ⟨b, hb⟩
          exact ⟨b, by simp [hc, hb]⟩
        · simp [leadsWith, hc] at h
      · rintro ⟨b, hb⟩
        have hc : c = p := by
          have := congrArg (fun l => l.headD ' ') hb
          simpa using this
        have hcs : cs = ps ++ b := by
          have := congrArg List.tail hb
          simpa using this
        simp [leadsWith, hc]
        exact (ih cs).mpr ⟨b, hcs⟩

theorem not_subseg_nil {k : List Char} (hk : k ≠ []) : ¬ SubSeg k [] := by
  rintro ⟨a, b, hab⟩
  rcases List.append_eq_nil.mp hab.symm with ⟨hak, _⟩
  rcases List.append_eq_nil.mp hak with ⟨_, hkk⟩
  exact hk hkk

theorem subseg_of_tail {k : List Char} {c : Char} {t : List Char}
    (h : SubSeg k t) : SubSeg k (c :: t) := by
  rcases h with ⟨a, b, hab⟩
  exact ⟨c :: a, b, by simp [hab]⟩

theorem subseg_cons_elim {k : List Char} {c : Char} {t : List Char}
    (h : SubSeg k (c :: t)) : IsLead k (c :: t) ∨ SubSeg k t := by
  rcases h with ⟨a, b, hab⟩
  cases a with
  | nil => exact Or.inl ⟨b, by simpa using hab⟩
  | cons x a' =>
    have hx : c :: t = x :: (a' ++ k ++ b) := by simpa using hab
    have ht : t = a' ++ k ++ b := by
      have := congrArg List.tail hx
      simpa using this
    exact Or.inr ⟨a', b, ht⟩

theorem subseg_of_drop {k s : List Char} {n : ℕ}
    (h : SubSeg k (s.drop n)) : SubSeg k s := by
  rcases h with ⟨a, b, hab⟩
  refine ⟨s.take n ++ a, b, ?_⟩
  conv_lhs => rw [← List.take_append_drop n s]
  rw [hab]
  simp [List.append_assoc]

/-- An occurrence of `k` inside `v ++ w` must lie inside `w` when no
character of `v` belongs to `k`. -/
theorem subseg_append_elim {k : List Char} (hk : k ≠ []) :
    ∀ v w : List Char, (∀ c ∈ v, c ∉ k) → SubSeg k (v ++ w) → SubSeg k w := by
  intro v
  induction v with
  | nil => intro w _ h; simpa using h
  | cons x v' ih =>
    intro w hv h
    rcases subseg_cons_elim (by simpa using h) with hlead | htail
    · rcases hlead with ⟨b, hb⟩
      cases k with
      | nil => exact absurd rfl hk
      | cons kc ks =>
        have hx : x = kc := by
          have := congrArg (fun l => l.headD ' ') hb
          simpa using this
        have : x ∉ kc :: ks := hv x (by simp)
        exact absurd (by simp [hx]) this
    · exact ih w (fun c hc => hv c (by simp [hc])) htail

/-- A prefix of the output of `replaceFuel k v fuel t` consisting only of
characters from a set `K` that is disjoint from `v` must be a prefix of
`t` itself (the replacement text `v` can never contribute to it). -/
theorem lead_of_replace {k v : List Char} {K : Char → Prop}
    (hv : ∀ c ∈ v, ¬ K c) (hvne : v ≠ []) :
    ∀ fuel t w, t.length ≤ fuel → IsLead w (replaceFuel k v fuel t) →
      (∀ c ∈ w, K c) → IsLead w t := by
  intro fuel
  induction fuel with
  | zero =>
    intro t w hlen hw _
    cases t with
    | nil => simpa [replaceFuel] using hw
    | cons c t' => simpa [replaceFuel] using hw
  | succ f ih =>
    intro t w hlen hw hwK
    cases t with
    | nil =>
      simpa [replaceFuel] using hw
    | cons c t' =>
      by_cases hmatch : leadsWith k (c :: t') = true
      · have hres : replaceFuel k v (f + 1) (c :: t') =
            v ++ replaceFuel k v f ((c :: t').drop k.length) := by
          simp [replaceFuel, hmatch]
        rw [hres] at hw
        cases w with
        | nil => exact ⟨c :: t', rfl⟩
        | cons d w' =>
          rcases hw with ⟨b, hb⟩
          cases v with
          | nil => exact absurd rfl hvne
          | cons vc vs =>
            have hd : vc = d := by
              have := congrArg (fun l => l.headD ' ') hb
              simpa using this
            have : K vc := hd ▸ hwK d (by simp)
            exact absurd this (hv vc (by simp))
      · have hres : replaceFuel k v (f + 1) (c :: t') =
            c :: replaceFuel k v f t' := by
          simp [replaceFuel, hmatch]
        rw [hres] at hw
        cases w with
        | nil => exact ⟨c :: t', rfl⟩
        | cons d w' =>
          rcases hw with ⟨b, hb⟩
          have hd : c = d := by
            have := congrArg (fun l => l.headD ' ') hb
            simpa using this
          have hw' : IsLead w' (replaceFuel k v f t') := by
            refine ⟨b, ?_⟩
            have := congrArg List.tail hb
            simpa using this
          have hlen' : t'.length ≤ f := by
            have := hlen
            simp only [List.length_cons] at this
            omega
          have := ih t' w' hlen' hw' (fun x hx => hwK x (by simp [hx]))
          rcases this with ⟨b', hb'⟩
          exact ⟨b', by simp [← hd, hb']⟩

/-- After `replaceFuel k v fuel s` with enough fuel, the pattern `k` no
longer occurs anywhere, provided no character of `v` occurs in `k`. -/
theorem not_subseg_replace_self {k v : List Char}
    (hk : k ≠ []) (hvne : v ≠ []) (hdisj : ∀ c ∈ v, c ∉ k) :
    ∀ fuel s, s.length ≤ fuel → ¬ SubSeg k (replaceFuel k v fuel s) := by
  intro fuel
  induction fuel with
  | zero =>
    intro s hlen
    have hs : s = [] := List.length_eq_zero.mp (Nat.le_zero.mp hlen)
    subst hs
    simpa [replaceFuel] using not_subseg_nil hk
  | succ f ih =>
    intro s hlen
    cases s with
    | nil => simpa [replaceFuel] using not_subseg_nil hk
    | cons c t =>
      by_cases hmatch : leadsWith k (c :: t) = true
      · have hres : replaceFuel k v (f + 1) (c :: t) =
            v ++ replaceFuel k v f ((c :: t).drop k.length) := by
          simp [replaceFuel, hmatch]
        rw [hres]
        intro habs
        have hinner := subseg_append_elim hk v _ hdisj habs
        have hklen : 1 ≤ k.length := by
          cases k with
          | nil => exact absurd rfl hk
          | cons _ _ => simp
        have hlen' : ((c :: t).drop k.length).length ≤ f := by
          rw [List.length_drop]
          have h1 : (c :: t).length ≤ f + 1 := hlen
          omega
        exact ih _ hlen' hinner
      · have hres : replaceFuel k v (f + 1) (c :: t) =
            c :: replaceFuel k v f t := by
          simp [replaceFuel, hmatch]
        rw [hres]
        intro habs
        have hlen' : t.length ≤ f := by
          have := hlen
          simp only [List.length_cons] at this
          omega
        rcases subseg_cons_elim habs with hlead | htail
        · rcases hlead with ⟨b, hb⟩
          cases hkk : k with
          | nil => exact absurd hkk hk
          | cons kc ks =>
            rw [hkk] at hb hdisj hmatch
            have hkc : c = kc := by
              have := congrArg (fun l => l.headD ' ') hb
              simpa using this
            have hks : IsLead ks (replaceFuel k v f t) := by
              refine ⟨b, ?_⟩
              have := congrArg List.tail hb
              rw [hkk]
              simpa using this
            have hlead_t : IsLead ks t :=
              lead_of_replace (K := fun x => x ∈ kc :: ks)
                (fun x hx hmem => hdisj x hx hmem) hvne f t ks hlen'
                hks (fun x hx => by simp [hx])
            rcases hlead_t with ⟨b', hb'⟩
            have : leadsWith (kc :: ks) (c :: t) = true :=
              (leadsWith_iff _ _).mpr ⟨b', by simp [hkc, hb']⟩
            exact hmatch this
        · exact ih t hlen' htail

/-- Replacing a different pattern `k'` by `v'` cannot create a new
occurrence of `k`, provided no character of `v'` occurs in `k`. -/
theorem not_subseg_replace_other {k k' v' : List Char}
    (hk : k ≠ []) (hk'ne : k' ≠ []) (hv'ne : v' ≠ []) (hdisj : ∀ c ∈ v', c ∉ k) :
    ∀ fuel s, s.length ≤ fuel → ¬ SubSeg k s →
      ¬ SubSeg k (replaceFuel k' v' fuel s) := by
  intro fuel
  induction fuel with
  | zero =>
    intro s hlen hs
    have h0 : s = [] := List.length_eq_zero.mp (Nat.le_zero.mp hlen)
    subst h0
    simpa [replaceFuel] using not_subseg_nil hk
  | succ f ih =>
    intro s hlen hs
    cases s with
    | nil => simpa [replaceFuel] using not_subseg_nil hk
    | cons c t =>
      have hlen' : t.length ≤ f := by
        have := hlen
        simp only [List.length_cons] at this
        omega
      by_cases hmatch : leadsWith k' (c :: t) = true
      · have hres : replaceFuel k' v' (f + 1) (c :: t) =
            v' ++ replaceFuel k' v' f ((c :: t).drop k'.length) := by
          simp [replaceFuel, hmatch]
        rw [hres]
        intro habs
        have hinner := subseg_append_elim hk v' _ hdisj habs
        have hsd : ¬ SubSeg k ((c :: t).drop k'.length) := fun hx =>
          hs (subseg_of_drop hx)
        have hlen'' : ((c :: t).drop k'.length).length ≤ f := by
          rw [List.length_drop]
          have h1 : (c :: t).length ≤ f + 1 := hlen
          have h2 : 1 ≤ k'.length := by
            cases hk'' : k' with
            | nil => exact absurd hk'' hk'ne
            | cons _ _ => simp
          omega
        exact ih _ hlen'' hsd hinner
      · have hres : replaceFuel k' v' (f + 1) (c :: t) =
            c :: replaceFuel k' v' f t := by
          simp [replaceFuel, hmatch]
        rw [hres]
        intro habs
        rcases subseg_cons_elim habs with hlead | htail
        · rcases hlead with ⟨b, hb⟩
          cases hkk : k with
          | nil => exact absurd hkk hk
          | cons kc ks =>
            rw [hkk] at hb
            have hkc : c = kc := by
              have := congrArg (fun l => l.headD ' ') hb
              simpa using this
            have hks : IsLead ks (replaceFuel k' v' f t) := by
              refine ⟨b, ?_⟩
              have := congrArg List.tail hb
              simpa using this
            have hdisj' : ∀ x ∈ v', ¬ x ∈ kc :: ks := by
              intro x hx
              rw [← hkk]
              exact hdisj x hx
            have hlead_t : IsLead ks t :=
              lead_of_replace (K := fun x => x ∈ kc :: ks)
                hdisj' hv'ne f t ks hlen' hks (fun x hx => by simp [hx])
            rcases hlead_t with ⟨b', hb'⟩
            exact hs ⟨[], b', by simp [hkk, ← hkc, hb']⟩
        · exact ih t hlen' (fun hx => hs (subseg_of_tail hx)) htail

/-- If the pattern does not occur, `replaceFuel` is the identity. -/
theorem replace_of_not_subseg {k v : List Char} :
    ∀ fuel s, ¬ SubSeg k s → replaceFuel k v fuel s = s := by
  intro fuel
  induction fuel with
  | zero =>
    intro s _
    cases s <;> simp [replaceFuel]
  | succ f ih =>
    intro s hs
    cases s with
    | nil => simp [replaceFuel]
    | cons c t =>
      by_cases hmatch : leadsWith k (c :: t) = true
      · exfalso
        rcases (leadsWith_iff _ _).mp hmatch with ⟨b, hb⟩
        exact hs ⟨[], b, by simpa using hb⟩
      · have hres : replaceFuel k v (f + 1) (c :: t) =
            c :: replaceFuel k v f t := by
          simp [replaceFuel, hmatch]
        rw [hres, ih t (fun hx => hs (subseg_of_tail hx))]

theorem tableOK_tail {p₀ : List Char × List Char}
    {rest : List (List Char × List Char)}
    (h : TableOK (p₀ :: rest)) : TableOK rest := by
  refine ⟨fun p hp => h.1 p (by simp [hp]), fun p hp q hq => ?_⟩
  exact h.2 p (by simp [hp]) q (by simp [hq])

/-- Later replacement passes never reintroduce a pattern that is absent. -/
theorem fold_preserve_no_subseg {k : List Char} (hk : k ≠ []) :
    ∀ (rest : List (List Char × List Char)),
      (∀ q ∈ rest, q.1 ≠ [] ∧ q.2 ≠ [] ∧ ∀ c ∈ q.2, c ∉ k) →
      ∀ x, ¬ SubSeg k x → ¬ SubSeg k (foldRepl rest x) := by
  intro rest
  induction rest with
  | nil => intro _ x hx; simpa [foldRepl] using hx
  | cons q rest ih =>
    intro hq x hx
    have hq0 := hq q (by simp)
    have hstep : ¬ SubSeg k (replaceList q.1 q.2 x) :=
      not_subseg_replace_other hk hq0.1 hq0.2.1 hq0.2.2 x.length x le_rfl hx
    have := ih (fun r hr => hq r (by simp [hr])) (replaceList q.1 q.2 x) hstep
    simpa [foldRepl] using this

/-- After the full replacement loop, no pattern of the table occurs in the
result. -/
theorem fold_no_key :
    ∀ (table : List (List Char × List Char)), TableOK table →
      ∀ p ∈ table, ∀ s, ¬ SubSeg p.1 (foldRepl table s) := by
  intro table
  induction table with
  | nil => intro _ p hp; exact absurd hp (by simp)
  | cons p₀ rest ih =>
    intro hok p hp s
    have hp₀ := hok.1 p₀ (by simp)
    rcases List.mem_cons.mp hp with hph | hpr
    · subst hph
      have hself : ∀ c ∈ p.2, c ∉ p.1 := hok.2 p (by simp) p (by simp)
      have h1 : ¬ SubSeg p.1 (replaceList p.1 p.2 s) :=
        not_subseg_replace_self hp₀.1 hp₀.2 hself s.length s le_rfl
      have hrest : ∀ q ∈ rest, q.1 ≠ [] ∧ q.2 ≠ [] ∧ ∀ c ∈ q.2, c ∉ p.1 := by
        intro q hq
        refine ⟨(hok.1 q (by simp [hq])).1, (hok.1 q (by simp [hq])).2, ?_⟩
        exact hok.2 p (by simp) q (by simp [hq])
      have := fold_preserve_no_subseg hp₀.1 rest hrest (replaceList p.1 p.2 s) h1
      simpa [foldRepl] using this
    · have := ih (tableOK_tail hok) p hpr (replaceList p₀.1 p₀.2 s)
      simpa [foldRepl] using this

/-- If no pattern of the table occurs in `x`, the loop leaves `x` unchanged. -/
theorem fold_identity :
    ∀ (table : List (List Char × List Char)) (x : List Char),
      (∀ p ∈ table, ¬ SubSeg p.1 x) → foldRepl table x = x := by
  intro table
  induction table with
  | nil => intro x _; simp [foldRepl]
  | cons p₀ rest ih =>
    intro x hx
    have h0 : replaceList p₀.1 p₀.2 x = x :=
      replace_of_not_subseg x.length x (hx p₀ (by simp))
    have : foldRepl (p₀ :: rest) x = foldRepl rest (replaceList p₀.1 p₀.2 x) := by
      simp [foldRepl]
    rw [this, h0]
    exact ih x (fun p hp => hx p (by simp [hp]))


theorem hasSeg_iff : ∀ (k s : List Char), hasSeg k s = true ↔ SubSeg k s := by
  intro k s
  induction s with
  | nil =>
    constructor
    · intro h
      rcases (leadsWith_iff k []).mp (by simpa [hasSeg] using h) with ⟨b, hb⟩
      rcases List.append_eq_nil.mp hb.symm with ⟨hk, hb0⟩
      exact ⟨[], [], by simp [hk, hb0]⟩
    · rintro ⟨a, b, hab⟩
      rcases List.append_eq_nil.mp hab.symm with ⟨hak, _⟩
      rcases List.append_eq_nil.mp hak with ⟨_, hkk⟩
      simp [hasSeg, hkk, leadsWith]
  | cons c t ih =>
    constructor
    · intro h
      rcases Bool.or_eq_true_iff.mp (by simpa [hasSeg] using h) with hlead | htail
      · rcases (leadsWith_iff _ _).mp hlead with ⟨b, hb⟩
        exact ⟨[], b, by simpa using hb⟩
      · exact subseg_of_tail (ih.mp htail)
    · intro h
      rcases subseg_cons_elim h with hlead | htail
      · have : leadsWith k (c :: t) = true := (leadsWith_iff _ _).mpr hlead
        simp [hasSeg, this]
      · simp [hasSeg, ih.mpr htail]

theorem mojibakeTable_ok : TableOK mojibakeTable := by
  constructor <;> decide

/-- C9: `fix_mojibake` is idempotent — applying it twice equals applying it
once for every string; a string containing none of the table's corrupted
patterns is returned unchanged; and no corrupted pattern of the table
occurs inside any of the table's replacement texts. -/
theorem fix_mojibake_idempotent :
    (∀ s : String, fix_mojibake (fix_mojibake s) = fix_mojibake s) ∧
    (∀ s : String, (mojibakeTable.all fun p => !(hasSeg p.1 s.data)) = true →
      fix_mojibake s = s) ∧
    (mojibakeTable.all fun p =>
      mojibakeTable.all fun q => !(hasSeg p.1 q.2)) = true := by
  have hclean : ∀ s : String,
      (mojibakeTable.all fun p => !(hasSeg p.1 s.data)) = true →
      fix_mojibake s = s := by
    intro s hall
    obtain ⟨l⟩ := s
    by_cases hs : String.mk l = ""
    · unfold fix_mojibake
      rw [if_pos hs]
    · have hfold : foldRepl mojibakeTable l = l := by
        apply fold_identity
        intro p hp
        have hb := List.all_eq_true.mp hall p hp
        intro habs
        have hseg : hasSeg p.1 l = true := (hasSeg_iff p.1 l).mpr habs
        rw [hseg] at hb
        simp at hb
      unfold fix_mojibake
      rw [if_neg hs]
      exact congrArg String.mk hfold
  refine ⟨?_, hclean, by decide⟩
  intro s
  by_cases hs : s = ""
  · subst hs
    rfl
  · have h1 : fix_mojibake s = String.mk (foldRepl mojibakeTable s.data) := by
      unfold fix_mojibake
      rw [if_neg hs]
    rw [h1]
    by_cases h2 : String.mk (foldRepl mojibakeTable s.data) = ""
    · unfold fix_mojibake
      rw [if_pos h2]
    · have h3 : fix_mojibake (String.mk (foldRepl mojibakeTable s.data)) =
          String.mk (foldRepl mojibakeTable (foldRepl mojibakeTable s.data)) := by
        unfold fix_mojibake
        rw [if_neg h2]
      rw [h3]
      refine congrArg String.mk ?_
      apply fold_identity
      intro p hp
      exact fold_no_key mojibakeTable mojibakeTable_ok p hp s.data

theorem fix_mojibake_idempotent_witness :
    fix_mojibake (fix_mojibake sampleMoji) = fix_mojibake sampleMoji ∧
    fix_mojibake "Nature-inspired catalysts" = "Nature-inspired catalysts" :=
  ⟨fix_mojibake_idempotent.1 sampleMoji,
   fix_mojibake_idempotent.2.1 "Nature-inspired catalysts" (by decide)⟩

/-- C10: the mojibake-repair table keeps all seven byte-wise distinct
corrupted keys as separate rules — the keys are pairwise different, and
`fix_mojibake` maps each corrupted key to that rule's replacement, so
visually similar rules (the two dash rules, the two double-quote rules)
are retained and applied rather than collapsed. -/
theorem mojibake_table_rules :
    mojibakeTable.length = 7 ∧
    mojibakeTable.Pairwise (fun p q => p.1 ≠ q.1) ∧
    (mojibakeTable.all fun p =>
      fix_mojibake (String.mk p.1) == String.mk p.2) = true := by
  exact ⟨by decide, by decide, by decide⟩

/-- C1 (amended): in spider_yesterday_1012.py, `get_entry_pub_date` tries
its sources in fixed priority order with the first success winning: the
structured published tuple, then the structured updated tuple, then the
free-text published string, then the free-text updated string, and only
then the "Available online" phrase of the summary.  (The matoday variant
reverses this: see the counterexample theorem.) -/
theorem date_resolver_priority_1012 (unesc : String → String)
    (pdParse : String → Except Unit PyDateTime) (e : Entry) :
    (∀ t : TimeTuple, e.published_parsed = some t →
      get_entry_pub_date unesc pdParse e =
        (mkDatetime t.year t.month t.mday t.hour t.minute t.sec).map some) ∧
    (∀ t : TimeTuple, e.published_parsed = none → e.updated_parsed = some t →
      get_entry_pub_date unesc pdParse e =
        (mkDatetime t.year t.month t.mday t.hour t.minute t.sec).map some) ∧
    (∀ d : PyDateTime, e.published_parsed = none → e.updated_parsed = none →
      parse_date_strict pdParse e.published = some d →
      get_entry_pub_date unesc pdParse e = .ok (some d)) ∧
    (∀ d : PyDateTime, e.published_parsed = none → e.updated_parsed = none →
      parse_date_strict pdParse e.published = none →
      parse_date_strict pdParse e.updated = some d →
      get_entry_pub_date unesc pdParse e = .ok (some d)) ∧
    (e.published_parsed = none → e.updated_parsed = none →
      parse_date_strict pdParse e.published = none →
      parse_date_strict pdParse e.updated = none →
      get_entry_pub_date unesc pdParse e =
        .ok (parse_available_online_date unesc pdParse (e.summary.getD ""))) := by
  refine ⟨?_, ?_, ?_, ?_, ?_⟩
  · intro t ht
    simp [get_entry_pub_date, ht, Option.orElse]
  · intro t hp hu
    simp [get_entry_pub_date, hp, hu, Option.orElse]
  · intro d hp hu hps
    simp [get_entry_pub_date, hp, hu, hps, Option.orElse]
  · intro d hp hu hps hus
    simp [get_entry_pub_date, hp, hu, hps, hus, Option.orElse]
  · intro hp hu hps hus
    simp [get_entry_pub_date, hp, hu, hps, hus, Option.orElse]

/-- C1 witness: an entry carrying BOTH a structured published tuple
(2025-10-15 12:00) and an "Available online 9 October 2025" phrase
resolves, in spider_yesterday_1012.py, to the instant built from the
tuple. -/
theorem date_resolver_priority_1012_witness :
    get_entry_pub_date id pdErr eBoth = .ok (some ⟨2025, 10, 15, 12, 0, 0⟩) := by
  have h := (date_resolver_priority_1012 id pdErr eBoth).1
    ⟨2025, 10, 15, 12, 0, 0⟩ rfl
  rw [h]
  rfl

/-- C1 counterexample: spider_yesterday_matoday.py (cited by the claim)
tries the "Available online" phrase BEFORE the structured tuples, so the
same both-sources entry resolves there to the Available-online date
2025-10-09 00:00, not to the instant built from its (valid) tuple. -/
theorem matoday_available_first_cex :
    eBoth.published_parsed = some ⟨2025, 10, 15, 12, 0, 0⟩ ∧
    mkDatetime 2025 10 15 12 0 0 = .ok ⟨2025, 10, 15, 12, 0, 0⟩ ∧
    matoday_entry_pub_date duOct9 eBoth = .ok (some ⟨2025, 10, 9, 0, 0, 0⟩) ∧
    (⟨2025, 10, 9, 0, 0, 0⟩ : PyDateTime) ≠ ⟨2025, 10, 15, 12, 0, 0⟩ :=
  ⟨rfl, rfl, rfl, by decide⟩

/-- C3: the window filter admits an entry iff its resolved instant is
present and its UTC calendar date equals the target date; the boundary
entries 2025-10-09T23:59:59Z (excluded) and 2025-10-10T00:00:00Z
(included) behave as claimed for target 2025-10-10; and every record that
survives the entry loop has a `pub_date` whose date equals the target
day. -/
theorem window_filter_spec :
    (∀ (pub : Option PyDateTime) (target : PyDate),
      in_window pub target = true ↔ ∃ d, pub = some d ∧ d.date = target) ∧
    in_window (some ⟨2025, 10, 9, 23, 59, 59⟩) ⟨2025, 10, 10⟩ = false ∧
    in_window (some ⟨2025, 10, 10, 0, 0, 0⟩) ⟨2025, 10, 10⟩ = true ∧
    (∀ (unesc : String → String) (pdParse : String → Except Unit PyDateTime)
        (extractAlt : String → Option String) (src : String) (yest : PyDate)
        (entries : List Entry) (recs : List Record),
      processEntries unesc pdParse extractAlt src yest entries = .ok recs →
      ∀ r ∈ recs, r.pub_date.date = yest) := by
  refine ⟨?_, by decide, by decide, ?_⟩
  · intro pub target
    cases pub with
    | none => simp [in_window]
    | some d => simp [in_window]
  · intro unesc pdParse extractAlt src yest entries
    induction entries with
    | nil =>
      intro recs h r hr
      simp only [processEntries] at h
      cases h
      simp at hr
    | cons e rest ih =>
      intro recs h r hr
      cases hpd : get_entry_pub_date unesc pdParse e with
      | error er =>
        simp only [processEntries, hpd] at h
        exact Except.noConfusion h
      | ok pd =>
        cases hrest : processEntries unesc pdParse extractAlt src yest rest with
        | error er =>
          simp only [processEntries, hpd, hrest] at h
          exact Except.noConfusion h
        | ok recs' =>
          simp only [processEntries, hpd, hrest] at h
          cases pd with
          | none =>
            have h' : recs' = recs := by
              have h2 : Except.ok (ε := Unit) recs' = Except.ok recs := h
              exact Except.ok.inj h2
            subst h'
            exact ih _ hrest r hr
          | some d =>
            have h2 : (if in_window (some d) yest = true then
                Except.ok (ε := Unit)
                  (mk_record unesc extractAlt src e d :: recs')
              else Except.ok recs') = Except.ok recs := h
            by_cases hw : in_window (some d) yest = true
            · rw [if_pos hw] at h2
              have h3 : mk_record unesc extractAlt src e d :: recs' = recs :=
                Except.ok.inj h2
              subst h3
              rcases List.mem_cons.mp hr with hr0 | hrtail
              · subst hr0
                exact of_decide_eq_true hw
              · exact ih recs' hrest r hrtail
            · rw [if_neg hw] at h2
              have h3 : recs' = recs := Except.ok.inj h2
              subst h3
              exact ih _ hrest r hr

/-- C3 witness: a single-entry run at target 2025-10-10 keeps the
2025-10-10T00:00:00Z entry, and the surviving record's date equals the
target. -/
theorem window_filter_spec_witness :
    processEntries id pdErr extNone "src" ⟨2025, 10, 10⟩ [eWin] =
      .ok [⟨"", "", "2025-10-10 00:00:00 UTC", "src", ⟨2025, 10, 10, 0, 0, 0⟩⟩] ∧
    (∀ r ∈ [(⟨"", "", "2025-10-10 00:00:00 UTC", "src",
        ⟨2025, 10, 10, 0, 0, 0⟩⟩ : Record)],
      r.pub_date.date = (⟨2025, 10, 10⟩ : PyDate)) :=
  ⟨rfl, window_filter_spec.2.2.2 id pdErr extNone "src" ⟨2025, 10, 10⟩ [eWin]
    [⟨"", "", "2025-10-10 00:00:00 UTC", "src", ⟨2025, 10, 10, 0, 0, 0⟩⟩] rfl⟩

/-- C4: `get_entry_title`'s decision rule.  When the sanitized feed title
is generic (empty, shorter than 5 characters, or in the fixed
generic-phrase set after trim and lower-case) and at least one alt
candidate exists, the longest candidate wins; when the feed title is
non-generic it is overridden only by the longest candidate and only when
that candidate is non-generic and at least 10 characters longer than the
feed title; with no candidates, the feed title (possibly empty) is
returned. -/
theorem title_resolver_spec (unesc : String → String)
    (extractAlt : String → Option String) (e : Entry) :
    (looks_generic (fix_mojibake (clean_html_text unesc (e.title.getD ""))) = true →
      altCandidates extractAlt e ≠ [] →
      get_entry_title unesc extractAlt e = maxByLen (altCandidates extractAlt e)) ∧
    (looks_generic (fix_mojibake (clean_html_text unesc (e.title.getD ""))) = false →
      get_entry_title unesc extractAlt e =
        (if !(altCandidates extractAlt e).isEmpty &&
            decide ((maxByLen (altCandidates extractAlt e)).length ≥
              (fix_mojibake (clean_html_text unesc (e.title.getD ""))).length + 10) &&
            !looks_generic (maxByLen (altCandidates extractAlt e))
         then maxByLen (altCandidates extractAlt e)
         else fix_mojibake (clean_html_text unesc (e.title.getD "")))) ∧
    (altCandidates extractAlt e = [] →
      get_entry_title unesc extractAlt e =
        fix_mojibake (clean_html_text unesc (e.title.getD ""))) := by
  refine ⟨?_, ?_, ?_⟩
  · intro hg hA
    have hAe : (altCandidates extractAlt e).isEmpty = false := by
      cases hAc : altCandidates extractAlt e with
      | nil => exact absurd hAc hA
      | cons a as => rfl
    simp only [get_entry_title, hg, hAe]
    simp
  · intro hg
    have hTne : fix_mojibake (clean_html_text unesc (e.title.getD "")) ≠ "" := by
      intro h0
      rw [h0] at hg
      exact absurd hg (by decide)
    have hTb : (fix_mojibake (clean_html_text unesc (e.title.getD "")) != "") = true := by
      simp [bne_iff_ne, hTne]
    simp only [get_entry_title, hg, hTb]
    simp
  · intro hA
    have hAe : (altCandidates extractAlt e).isEmpty = true := by
      rw [hA]
      rfl
    simp only [get_entry_title, hA, hAe]
    by_cases hT : fix_mojibake (clean_html_text unesc (e.title.getD "")) = ""
    · simp [hT]
    · simp [hT]

/-- C4 witness: the "Graphical Abstract" placeholder title is replaced by
the alt-text headline extracted from the content blob. -/
theorem title_resolver_spec_witness :
    get_entry_title id altNovel eGraph =
      "Novel catalyst enables low-temperature CO2 reduction" := by
  have h := (title_resolver_spec id altNovel eGraph).1 (by decide) (by decide)
  rw [h]
  rfl

/-- C5: with no structured tuples and no published/updated strings, an
entry whose description contains "Available online 10 October 2025"
resolves through the month-name table to 2025-10-10T00:00:00Z; and when
the month name is not in the table, `parse_available_online_date` falls
back to the free-text parser applied to the captured substring. -/
theorem available_online_spec (unesc : String → String)
    (pdParse : String → Except Unit PyDateTime) :
    (unesc availDesc = availDesc →
      get_entry_pub_date unesc pdParse eAvail =
        .ok (some ⟨2025, 10, 10, 0, 0, 0⟩)) ∧
    (unesc availDescBadMonth = availDescBadMonth →
      parse_available_online_date unesc pdParse availDescBadMonth =
        parse_date_strict pdParse (some "10 Octember 2025")) := by
  constructor
  · intro h
    have hc : clean_html_text unesc availDesc = availDesc := by
      unfold clean_html_text
      rw [if_neg (by decide), h]
      decide
    have h1 : get_entry_pub_date unesc pdParse eAvail =
        .ok (parse_available_online_date unesc pdParse availDesc) := rfl
    rw [h1]
    simp only [parse_available_online_date, hc]
    rfl
  · intro h
    have hc : clean_html_text unesc availDescBadMonth = availDescBadMonth := by
      unfold clean_html_text
      rw [if_neg (by decide), h]
      decide
    simp only [parse_available_online_date, hc]
    rfl

/-- C5 witness: at the identity unescape and an always-failing pandas
parser, the Available-online entry resolves to 2025-10-10T00:00:00Z, and
the unknown-month description falls back to the free-text parse of
"10 Octember 2025". -/
theorem available_online_spec_witness :
    get_entry_pub_date id pdErr eAvail = .ok (some ⟨2025, 10, 10, 0, 0, 0⟩) ∧
    parse_available_online_date id pdErr availDescBadMonth =
      parse_date_strict pdErr (some "10 Octember 2025") :=
  ⟨(available_online_spec id pdErr).1 rfl, (available_online_spec id pdErr).2 rfl⟩

/-- C6 (amended): every failure in the free-text stages is swallowed — a
raising pandas parse yields "no date from this source" and resolution
falls through; when the tuples are absent the resolver can never raise;
and when every source fails it returns None rather than an error.  The
structured-tuple stage, however, is NOT guarded (see the counterexample
theorem): there the datetime constructor's error propagates. -/
theorem date_resolver_swallow_spec (unesc : String → String)
    (pdParse : String → Except Unit PyDateTime) (e : Entry) :
    (e.published_parsed = none → e.updated_parsed = none →
      ∃ r, get_entry_pub_date unesc pdParse e = .ok r) ∧
    (∀ (t : TimeTuple) (dt : PyDateTime),
      e.published_parsed.orElse (fun _ => e.updated_parsed) = some t →
      mkDatetime t.year t.month t.mday t.hour t.minute t.sec = .ok dt →
      get_entry_pub_date unesc pdParse e = .ok (some dt)) ∧
    (e.published_parsed = none → e.updated_parsed = none →
      parse_date_strict pdParse e.published = none →
      parse_date_strict pdParse e.updated = none →
      parse_available_online_date unesc pdParse (e.summary.getD "") = none →
      get_entry_pub_date unesc pdParse e = .ok none) := by
  refine ⟨?_, ?_, ?_⟩
  · intro hp hu
    have h0 : e.published_parsed.orElse (fun _ => e.updated_parsed) = none := by
      rw [hp, hu]
      rfl
    cases hps : parse_date_strict pdParse e.published with
    | some d => exact ⟨some d, by simp [get_entry_pub_date, h0, hps]⟩
    | none =>
      cases hus : parse_date_strict pdParse e.updated with
      | some d => exact ⟨some d, by simp [get_entry_pub_date, h0, hps, hus]⟩
      | none =>
        exact ⟨parse_available_online_date unesc pdParse (e.summary.getD ""),
          by simp [get_entry_pub_date, h0, hps, hus]⟩
  · intro t dt ht hmk
    simp [get_entry_pub_date, ht, hmk, Except.map]
  · intro hp hu hps hus hav
    simp [get_entry_pub_date, hp, hu, hps, hus, hav, Option.orElse]

/-- C6 witness: an entry whose only date signal is an unparseable
published string resolves, under an always-raising pandas parser, to
`ok None` — nothing propagates. -/
theorem date_resolver_swallow_spec_witness :
    get_entry_pub_date id pdErr eGarbage = .ok none :=
  (date_resolver_swallow_spec id pdErr eGarbage).2.2 rfl rfl rfl rfl rfl

/-- C6 counterexample: the structured-tuple stage is not inside a try
block — an entry whose published tuple carries month 13 makes
`get_entry_pub_date` raise (and the matoday variant likewise), so "any
exception at any stage is swallowed" fails. -/
theorem date_resolver_raises_cex :
    get_entry_pub_date id pdErr eBadTuple = .error () ∧
    matoday_entry_pub_date pdErr eBadTuple = .error () :=
  ⟨rfl, rfl⟩

theorem ddf_sublist (key : Record → String) :
    ∀ (seen : List String) (s : List Record),
      (dropDupFirstBy key seen s).Sublist s := by
  intro seen s
  induction s generalizing seen with
  | nil => simp [dropDupFirstBy]
  | cons r rs ih =>
    by_cases hmem : key r ∈ seen
    · simp only [dropDupFirstBy, if_pos hmem]
      exact (ih seen).cons r
    · simp only [dropDupFirstBy, if_neg hmem]
      exact (ih (key r :: seen)).cons₂ r

theorem ddf_nodup (key : Record → String) :
    ∀ (seen : List String) (s : List Record),
      ((dropDupFirstBy key seen s).map key).Nodup ∧
      ∀ k ∈ (dropDupFirstBy key seen s).map key, k ∉ seen := by
  intro seen s
  induction s generalizing seen with
  | nil => simp [dropDupFirstBy]
  | cons r rs ih =>
    by_cases hmem : key r ∈ seen
    · simpa only [dropDupFirstBy, if_pos hmem] using ih seen
    · simp only [dropDupFirstBy, if_neg hmem, List.map_cons, List.nodup_cons]
      have h1 := (ih (key r :: seen)).1
      have h2 := (ih (key r :: seen)).2
      refine ⟨⟨?_, h1⟩, ?_⟩
      · intro habs
        exact (h2 _ habs) (by simp)
      · intro k hk
        rcases List.mem_cons.mp hk with hk0 | hktail
        · subst hk0
          exact hmem
        · intro habs
          exact (h2 k hktail) (by simp [habs])

theorem ddf_rep (key : Record → String) :
    ∀ (seen : List String) (s : List Record),
      s.Pairwise (fun a b => dtKey a.pub_date ≤ dtKey b.pub_date) →
      ∀ r ∈ s, key r ∉ seen →
      ∃ r' ∈ dropDupFirstBy key seen s,
        key r' = key r ∧ dtKey r'.pub_date ≤ dtKey r.pub_date := by
  intro seen s
  induction s generalizing seen with
  | nil => intro _ r hr; exact absurd hr (by simp)
  | cons r0 rs ih =>
    intro hpw r hr hseen
    have hpw' := (List.pairwise_cons.mp hpw).2
    have hle := (List.pairwise_cons.mp hpw).1
    by_cases hmem : key r0 ∈ seen
    · simp only [dropDupFirstBy, if_pos hmem]
      rcases List.mem_cons.mp hr with hr0 | hrtail
      · subst hr0
        exact absurd hmem hseen
      · exact ih seen hpw' r hrtail hseen
    · simp only [dropDupFirstBy, if_neg hmem]
      rcases List.mem_cons.mp hr with hr0 | hrtail
      · subst hr0
        exact ⟨r, by simp, rfl, le_rfl⟩
      · by_cases hkey : key r = key r0
        · exact ⟨r0, by simp, hkey.symm, hle r hrtail⟩
        · have hseen' : key r ∉ key r0 :: seen := by
            intro habs
            rcases List.mem_cons.mp habs with h0 | h1
            · exact hkey h0
            · exact hseen h1
          rcases ih (key r0 :: seen) hpw' r hrtail hseen' with ⟨r', hr', hk', hd'⟩
          exact ⟨r', by simp [hr'], hk', hd'⟩

theorem perm_pair_elim {α : Type} {x y : α} {l : List α}
    (h : l.Perm [x, y]) : l = [x, y] ∨ l = [y, x] := by
  match l, h.length_eq with
  | [a, b], _ =>
    have ha : a ∈ [x, y] := h.mem_iff.mp (by simp)
    rcases List.mem_cons.mp ha with hax | hay
    · subst hax
      have hb : b = y := by simpa using List.perm_singleton.mp h.cons_inv
      subst hb
      exact Or.inl rfl
    · have hay' : a = y := by simpa using hay
      subst hay'
      have h2 : [a, b].Perm [a, x] := h.trans (List.Perm.swap x a []).symm
      have hb : b = x := by simpa using List.perm_singleton.mp h2.cons_inv
      subst hb
      exact Or.inr rfl

/-- C2 (amended): for any sorting routine meeting the contract pandas
documents for `sort_values` — the output is an ascending-by-`pub_date`
permutation of the input — the dedup stage keeps a subsequence of the
sorted rows, the kept trimmed titles are pairwise distinct, every input
row has a kept representative with the same trimmed title and a
publication instant no later than its own, and in the concrete
same-title 08:00/09:00 example exactly the 08:00 row survives.  Tie
order among EQUAL timestamps is not guaranteed (default quicksort is not
stable): see the counterexample theorem. -/
theorem dedup_sort_spec (sortFn : List Record → List Record) (l : List Record)
    (hs : (sortFn l).Pairwise (fun a b => dtKey a.pub_date ≤ dtKey b.pub_date))
    (hp : (sortFn l).Perm l) :
    (df_dedup sortFn l).Sublist (sortFn l) ∧
    ((df_dedup sortFn l).map titleNorm).Nodup ∧
    (∀ r ∈ l, ∃ r' ∈ df_dedup sortFn l,
      titleNorm r' = titleNorm r ∧ dtKey r'.pub_date ≤ dtKey r.pub_date) ∧
    (l = [recEx9, recEx8] → df_dedup sortFn l = [recEx8]) := by
  refine ⟨ddf_sublist titleNorm [] (sortFn l),
    (ddf_nodup titleNorm [] (sortFn l)).1, ?_, ?_⟩
  · intro r hr
    exact ddf_rep titleNorm [] (sortFn l) hs r (hp.mem_iff.mpr hr) (by simp)
  · intro hl
    subst hl
    rcases perm_pair_elim hp with hsort | hsort
    · exfalso
      rw [hsort] at hs
      have hle := (List.pairwise_cons.mp hs).1 recEx8 (by simp)
      exact absurd hle (by decide)
    · show dropDupFirstBy titleNorm [] (sortFn [recEx9, recEx8]) = [recEx8]
      rw [hsort]
      decide

/-- C2 witness: `List.reverse` sorts the concrete 09:00-then-08:00 input
(it is its sorted permutation), and dedup keeps only the 08:00 row. -/
theorem dedup_sort_spec_witness :
    df_dedup List.reverse [recEx9, recEx8] = [recEx8] :=
  (dedup_sort_spec List.reverse [recEx9, recEx8] (by decide)
    (List.reverse_perm _)).2.2.2 rfl

/-- C2 counterexample: with two same-trimmed-title records carrying EQUAL
timestamps, reversing the pair is also an ascending permutation — all
that pandas' default quicksort guarantees — yet then the later-input
record survives dedup, so the claimed stable tie-break (input order
preserved among equal timestamps) is not a consequence of the code. -/
theorem dedup_sort_tie_order_cex :
    (List.reverse [recT1, recT2]).Pairwise
      (fun a b => dtKey a.pub_date ≤ dtKey b.pub_date) ∧
    (List.reverse [recT1, recT2]).Perm [recT1, recT2] ∧
    titleNorm recT1 = titleNorm recT2 ∧
    recT1.pub_date = recT2.pub_date ∧
    recT1 ≠ recT2 ∧
    df_dedup List.reverse [recT1, recT2] = [recT2] :=
  ⟨by decide, List.reverse_perm _, by decide, by decide, by decide, by decide⟩

theorem aggregate_fst (today : PyDate) (fe : PyDate → Bool)
    (rc : PyDate → Except Unit DFShape) (cb : List DFShape → DFShape) :
    (aggregate_last_week today fe rc cb).1 = weeklyOutName (weekWindow today).2 := by
  simp only [aggregate_last_week]
  split
  · rfl
  · split
    · rfl
    · rfl

/-- C8: for a run on UTC date 2025-10-13 (a Monday, ISO weekday 1), the
weekly window runs from Monday 2025-10-06 to Sunday 2025-10-12, and the
output file is keyed by that Sunday's ISO pair (2025, W41) whatever the
filesystem contents. -/
theorem weekly_window_spec :
    weekWindow ⟨2025, 10, 13⟩ = (⟨2025, 10, 6⟩, ⟨2025, 10, 12⟩) ∧
    isoWeekday ⟨2025, 10, 13⟩ = 1 ∧
    isoWeekday ⟨2025, 10, 6⟩ = 1 ∧
    isoWeekday ⟨2025, 10, 12⟩ = 7 ∧
    isoYear ⟨2025, 10, 12⟩ = 2025 ∧
    isoWeek ⟨2025, 10, 12⟩ = 41 ∧
    (∀ (fe : PyDate → Bool) (rc : PyDate → Except Unit DFShape)
        (cb : List DFShape → DFShape),
      (aggregate_last_week ⟨2025, 10, 13⟩ fe rc cb).1 =
        "news_week_2025-W41.csv") := by
  refine ⟨by decide, by decide, by decide, by decide, by decide, by decide, ?_⟩
  intro fe rc cb
  rw [aggregate_fst]
  decide

/-- C7: the weekly aggregator's empty branches (no daily file exists, or
every existing file fails to read) do write a zero-row dataset carrying
the full five-column header; but on a daily run with zero matching
entries, spider_yesterday_1012.py writes the column-less
`pd.DataFrame([])` — not the fixed column set — and spider_yesterday.py
raises instead of writing anything. -/
theorem empty_result_behavior :
    (aggregate_last_week ⟨2025, 10, 13⟩ (fun _ => false)
      (fun _ => .error ()) (fun _ => ⟨[], 0⟩)).2 = ⟨fiveCols, 0⟩ ∧
    (aggregate_last_week ⟨2025, 10, 13⟩ (fun _ => true)
      (fun _ => .error ()) (fun _ => ⟨[], 0⟩)).2 = ⟨fiveCols, 0⟩ ∧
    daily_csv_1012 id [] = ⟨[], 0⟩ ∧
    (daily_csv_1012 id []).cols ≠ fiveCols ∧
    daily_csv_old id [] = .error () :=
  ⟨by decide, by decide, by decide, by decide, rfl⟩
